import Mathlib

/-!
Shallow embedding of `shadowsocks/eventloop.py`: the readiness-flag
vocabulary, the three polling backends (epoll / kqueue / select), the
descriptor registry, and the dispatch loop (`EventLoop.run`), together with
theorems settling the specification claims about them.
-/

namespace Eventloop

/-! ## Readiness flags (module-level constants of eventloop.py) -/

def POLL_NULL : Nat := 0x00
def POLL_IN : Nat := 0x01
def POLL_OUT : Nat := 0x04
def POLL_ERR : Nat := 0x08
def POLL_HUP : Nat := 0x10
def POLL_NVAL : Nat := 0x20

/-- CPython `select` module constants used by the kqueue backend
(`select.KQ_FILTER_READ = -1`, `select.KQ_FILTER_WRITE = -2`). -/
def KQ_FILTER_READ : Int := -1

def KQ_FILTER_WRITE : Int := -2

def KQ_EV_ADD : Nat := 1

def KQ_EV_DELETE : Nat := 2

/-! ## Backend selection (`EventLoop.__init__`)

`EventLoop.__init__` probes `hasattr(select, 'epoll')`, then
`hasattr(select, 'kqueue')`, then `hasattr(select, 'select')`, instantiates
the first available backend, and raises an `Exception` when none exists.
The host's capabilities are the three `hasattr` answers. -/

inductive BackendKind where
  | epoll
  | kqueue
  | select
deriving DecidableEq

structure SelectModule where
  hasEpoll : Bool
  hasKqueue : Bool
  hasSelect : Bool
deriving DecidableEq

/-- The backend-selection chain of `EventLoop.__init__` (lines 171-182). -/
def chooseBackend (m : SelectModule) : Except String BackendKind :=
  if m.hasEpoll then .ok .epoll
  else if m.hasKqueue then .ok .kqueue
  else if m.hasSelect then .ok .select
  else .error "can not find any available functions in select package"

/-! ## KqueueLoop: change-list construction (`KqueueLoop._control`) -/

structure KEvent where
  ident : Nat
  filter : Int
  flags : Nat
deriving DecidableEq

/-- The list of `select.kevent` change requests `KqueueLoop._control` builds
and submits for a given fd/mode/flags (lines 89-96): one per set bit among
POLL_IN and POLL_OUT of `mode`, nothing for any other bit. -/
def kqueueControlEvents (fd : Nat) (mode : Nat) (flags : Nat) : List KEvent :=
  (if mode &&& POLL_IN ≠ 0 then [⟨fd, KQ_FILTER_READ, flags⟩] else []) ++
    (if mode &&& POLL_OUT ≠ 0 then [⟨fd, KQ_FILTER_WRITE, flags⟩] else [])

/-! ## SelectLoop: the three interest sets -/

structure SelectLoop where
  r_list : Finset Nat
  w_list : Finset Nat
  x_list : Finset Nat
deriving DecidableEq

/-- `SelectLoop.add_fd` (lines 145-151): inserts `fd` into the read, write,
and error interest sets for the POLL_IN, POLL_OUT, POLL_ERR bits of `mode`
respectively; no other bit has any effect. -/
def SelectLoop.add_fd (s : SelectLoop) (fd : Nat) (mode : Nat) : SelectLoop :=
  { r_list := if mode &&& POLL_IN ≠ 0 then insert fd s.r_list else s.r_list
    w_list := if mode &&& POLL_OUT ≠ 0 then insert fd s.w_list else s.w_list
    x_list := if mode &&& POLL_ERR ≠ 0 then insert fd s.x_list else s.x_list }

/-- `SelectLoop.remove_fd` (lines 153-159). -/
def SelectLoop.remove_fd (s : SelectLoop) (fd : Nat) : SelectLoop :=
  { r_list := s.r_list.erase fd
    w_list := s.w_list.erase fd
    x_list := s.x_list.erase fd }

/-! ## Poll-result merging (`KqueueLoop.poll` and `SelectLoop.poll`)

Both poll methods build a `defaultdict(lambda: POLL_NULL)` keyed by
descriptor and OR readiness bits into it; the dict is modelled as an
association list in first-touch (= Python dict insertion) order. -/

/-- One `results[fd] |= bit` step on a `defaultdict(lambda: POLL_NULL)`. -/
def ddOr : List (Nat × Nat) → Nat → Nat → List (Nat × Nat)
  | [], fd, bit => [(fd, POLL_NULL ||| bit)]
  | (k, v) :: rest, fd, bit =>
    if k = fd then (k, v ||| bit) :: rest
    else (k, v) :: ddOr rest fd bit

/-- The merge loop of `KqueueLoop.poll` (lines 102-109): for each kevent,
OR POLL_IN into `results[e.ident]` when the filter is KQ_FILTER_READ,
POLL_OUT when it is KQ_FILTER_WRITE, and ignore any other filter. -/
def kqueuePollMerge (events : List KEvent) : List (Nat × Nat) :=
  events.foldl
    (fun m e =>
      if e.filter = KQ_FILTER_READ then ddOr m e.ident POLL_IN
      else if e.filter = KQ_FILTER_WRITE then ddOr m e.ident POLL_OUT
      else m)
    []

/-- The merge loop of `SelectLoop.poll` (lines 139-143): OR POLL_IN for each
fd of the ready-read list, POLL_OUT for the ready-write list, POLL_ERR for
the exceptional list. -/
def selectPollMerge (r w x : List Nat) : List (Nat × Nat) :=
  [(r, POLL_IN), (w, POLL_OUT), (x, POLL_ERR)].foldl
    (fun m p => p.1.foldl (fun m fd => ddOr m fd p.2) m)
    []

/-- The flag contributed by a single kevent to its descriptor. -/
def kqContrib (e : KEvent) : Nat :=
  if e.filter = KQ_FILTER_READ then POLL_IN
  else if e.filter = KQ_FILTER_WRITE then POLL_OUT
  else POLL_NULL

/-- Spec-side accumulation: the OR, starting from a zero accumulator, of the
flags contributed to `fd` by every kevent reported for it. -/
def kqSpecFlags (events : List KEvent) (fd : Nat) : Nat :=
  events.foldl (fun a e => if e.ident = fd then a ||| kqContrib e else a) POLL_NULL

/-- Spec-side accumulation for the select backend: the OR, starting from a
zero accumulator, of the flags contributed to `fd` by each ready set that
reported it. -/
def selSpecFlags (r w x : List Nat) (fd : Nat) : Nat :=
  [(r, POLL_IN), (w, POLL_OUT), (x, POLL_ERR)].foldl
    (fun a p => p.1.foldl (fun a k => if k = fd then a ||| p.2 else a) a)
    POLL_NULL

/-! ## Exceptions and `errno_from_exception`

A caught Python exception, as far as eventloop.py inspects it: whether it
is an instance of `(OSError, IOError)` (in Python 3 `IOError` is an alias
of `OSError`), whether it carries an `errno` attribute (whose value may be
`None`), and its `args` tuple. -/

def EINTR : Int := 4

def EPIPE : Int := 32

structure PyExc where
  /-- True when the object is an instance of `OSError` / `IOError`. -/
  isOSError : Bool
  /-- `none` when the object has no `errno` attribute at all;
  `some none` models an `errno` attribute whose value is `None`. -/
  errnoAttr : Option (Option Int)
  /-- The `args` tuple, restricted to the integer entries this module reads. -/
  args : List Int
deriving DecidableEq

/-- A `ValueError` as raised by `list.remove(x)` when `x` is absent. -/
def valueError : PyExc := ⟨false, none, []⟩

/-- `errno_from_exception` (lines 272-287): `e.errno` when the attribute
exists, else `e.args[0]` when `args` is non-empty, else `None`. -/
def errno_from_exception (e : PyExc) : Option Int :=
  match e.errnoAttr with
  | some v => v
  | none =>
    match e.args with
    | a :: _ => some a
    | [] => none

/-- The test `errno_from_exception(e) in (errno.EPIPE, errno.EINTR)`
performed by `run()` (line 242). -/
def isTransientPollError (e : PyExc) : Bool :=
  match errno_from_exception e with
  | some n => n == EPIPE || n == EINTR
  | none => false

/-! ## Dispatch-loop state (`EventLoop.run`, `add_handler`, `remove_handler`)

Handlers have no identity beyond reference equality; they are modelled by
an identifier. A handler invocation `handler(events)` is modelled by its
observable effect on the loop: the sequence of `remove_handler` calls it
performs, followed by an optional raised exception. (The claims under
study only exercise handlers that call `remove_handler`; the live list is
never mutated while `_iterating` is set, so iterating over the list at the
start of the `for` loop is faithful.) -/

abbrev Handler := Nat

structure HandlerBehavior where
  /-- The `remove_handler` calls the handler makes, in order. -/
  removals : List Handler
  /-- Raised at the end of the invocation, when `some`. -/
  raises : Option PyExc

/-- The environment of one cycle: the outcome of `self.poll(1)` (a list of
translated events, or a raised exception) and each handler's behaviour for
this cycle. -/
structure CycleInput where
  pollResult : Except PyExc (List (Nat × Nat))
  behavior : Handler → HandlerBehavior

/-- The mutable state of `EventLoop.run`: the four handler-related fields
of the object plus the local variable `events`. -/
structure LoopState where
  handlers : List Handler
  ref_handlers : List Handler
  handlers_to_remove : List Handler
  iterating : Bool
  events : List (Nat × Nat)
deriving DecidableEq

/-- `EventLoop.add_handler` (lines 213-217). -/
def add_handler (st : LoopState) (h : Handler) (ref : Bool) : LoopState :=
  { st with
    handlers := st.handlers ++ [h]
    ref_handlers := if ref then st.ref_handlers ++ [h] else st.ref_handlers }

/-- `EventLoop.remove_handler` (lines 219-230): the reference list is
purged immediately (guarded, so no exception); then either the removal is
deferred onto `_handlers_to_remove` (while `_iterating`) or applied to the
live list at once, where `list.remove` raises `ValueError` on a missing
element. -/
def remove_handler (st : LoopState) (h : Handler) : Except PyExc LoopState :=
  let st1 :=
    if h ∈ st.ref_handlers then
      { st with ref_handlers := st.ref_handlers.erase h }
    else st
  if st1.iterating then
    .ok { st1 with handlers_to_remove := st1.handlers_to_remove ++ [h] }
  else if h ∈ st1.handlers then
    .ok { st1 with handlers := st1.handlers.erase h }
  else
    .error valueError

/-- Severity-tagged log events emitted by one cycle of `run()`. -/
inductive LogEv where
  | debugPoll
  | errorPoll
  | errorHandler
deriving DecidableEq

/-- What one cycle did: which handlers were invoked, and what was logged. -/
structure CycleTrace where
  invoked : List Handler
  logs : List LogEv
deriving DecidableEq

/-- The `remove_handler` calls a handler makes during its invocation,
applied in order; an exception from one of them would propagate out of the
`handler(events)` call with the mutations so far kept. -/
def applyCalls : LoopState → List Handler → Except (PyExc × LoopState) LoopState
  | st, [] => .ok st
  | st, h :: rest =>
    match remove_handler st h with
    | .ok st1 => applyCalls st1 rest
    | .error e => .error (e, st)

/-- One `handler(events)` call inside the `try` of lines 256-262: the
handler runs its `remove_handler` calls and may raise; `(OSError, IOError)`
is caught and logged at error level, anything else propagates. -/
def invokeHandler (beh : HandlerBehavior) (st : LoopState) :
    Except (PyExc × LoopState) (LoopState × List LogEv) :=
  match applyCalls st beh.removals with
  | .error (e, st1) =>
    if e.isOSError then .ok (st1, [.errorHandler]) else .error (e, st1)
  | .ok st1 =>
    match beh.raises with
    | none => .ok (st1, [])
    | some e =>
      if e.isOSError then .ok (st1, [.errorHandler]) else .error (e, st1)

/-- The `for handler in self._handlers` loop (lines 254-262), iterating
over the given snapshot of the live list (which removals cannot perturb
while `_iterating` is set). -/
def dispatch : List Handler → CycleInput → LoopState →
    Except (PyExc × LoopState) (LoopState × CycleTrace)
  | [], _, st => .ok (st, ⟨[], []⟩)
  | h :: rest, inp, st =>
    match invokeHandler (inp.behavior h) st with
    | .error es => .error es
    | .ok (st1, logs) =>
      match dispatch rest inp st1 with
      | .ok (st2, tr) => .ok (st2, ⟨h :: tr.invoked, logs ++ tr.logs⟩)
      | .error es => .error es

/-- The inner loop of the pending-removal flush: `self._handlers.remove(h)`
for each pending `h`, where a missing element raises `ValueError` leaving
the removals made so far in place. -/
def removeEach : List Handler → List Handler →
    Except (PyExc × List Handler) (List Handler)
  | hs, [] => .ok hs
  | hs, h :: rest =>
    if h ∈ hs then removeEach (hs.erase h) rest
    else .error (valueError, hs)

/-- Lines 264-267: when `_handlers_to_remove` is non-empty, remove each of
its elements from the live list and then reset it to `[]`. -/
def applyPendingRemovals (st : LoopState) :
    Except (PyExc × LoopState) LoopState :=
  if st.handlers_to_remove = [] then .ok st
  else
    match removeEach st.handlers st.handlers_to_remove with
    | .ok hs => .ok { st with handlers := hs, handlers_to_remove := [] }
    | .error (e, hs) => .error (e, { st with handlers := hs })

/-- Lines 252-268: set `_iterating`, dispatch to every handler, flush the
pending removals, clear `_iterating`.  When an exception propagates from
dispatch or the flush, `_iterating` is left set, as in the source. -/
def dispatchPhase (inp : CycleInput) (st : LoopState) :
    Except (PyExc × LoopState) (LoopState × CycleTrace) :=
  match dispatch st.handlers inp { st with iterating := true } with
  | .error es => .error es
  | .ok (st1, tr) =>
    match applyPendingRemovals st1 with
    | .error es => .error es
    | .ok st2 => .ok ({ st2 with iterating := false }, tr)

/-- One whole cycle of the `while` body of `run()` (lines 236-268):
- a successful poll stores its events and proceeds to dispatch;
- a raised `(OSError, IOError)` with errno EPIPE or EINTR is logged at
  debug level and *falls through* to dispatch with the previous `events`;
- any other `(OSError, IOError)` is logged at error level and `continue`s,
  skipping dispatch and the pending-removal flush for this cycle;
- an exception of any other class propagates (the `except` clause does not
  match it). -/
def runCycle (inp : CycleInput) (st : LoopState) :
    Except (PyExc × LoopState) (LoopState × CycleTrace) :=
  match inp.pollResult with
  | .ok evs => dispatchPhase inp { st with events := evs }
  | .error e =>
    if e.isOSError then
      if isTransientPollError e then
        match dispatchPhase inp st with
        | .ok (st1, tr) => .ok (st1, ⟨tr.invoked, .debugPoll :: tr.logs⟩)
        | .error es => .error es
      else .ok (st, ⟨[], [.errorPoll]⟩)
    else .error (e, st)

/-- How an invocation of `run()` can end in the model: a normal return, an
exception propagating out of `run()`, or the fuel bound being hit (the
loop is still running). -/
inductive RunOutcome where
  | returned (st : LoopState)
  | raised (e : PyExc) (st : LoopState)
  | outOfFuel (st : LoopState)
deriving DecidableEq

/-- The `while self._ref_handlers` loop of `run()` (lines 235-268), with
the cycle environments indexed by cycle number and a fuel bound making the
recursion total. -/
def runLoop (env : Nat → CycleInput) : Nat → Nat → LoopState → RunOutcome
  | i, fuel, st =>
    if st.ref_handlers = [] then .returned st
    else
      match fuel with
      | 0 => .outOfFuel st
      | fuel' + 1 =>
        match runCycle (env i) st with
        | .ok (st1, _) => runLoop env (i + 1) fuel' st1
        | .error (e, st1) => .raised e st1

/-- `EventLoop.run` (lines 233-268): initialise the local `events = []`
and enter the loop at cycle 0. -/
def run (env : Nat → CycleInput) (fuel : Nat) (st : LoopState) : RunOutcome :=
  runLoop env 0 fuel { st with events := [] }

/-- `k` complete, exception-free cycles starting at cycle index `i`;
`none` when some cycle propagates an exception. -/
def cyclesFrom (env : Nat → CycleInput) : Nat → Nat → LoopState → Option LoopState
  | _, 0, st => some st
  | i, k + 1, st =>
    match runCycle (env i) st with
    | .ok (st1, _) => cyclesFrom env (i + 1) k st1
    | .error _ => none

/-! ## The descriptor registry (`EventLoop.add` / `remove` / `modify`)

`self._fd_to_f` is a Python dict from descriptor to endpoint object; it is
modelled as an association list in insertion order with dict semantics:
assignment overwrites in place, `del` removes or raises `KeyError`. An
endpoint is anything with a `fileno()`. -/

structure Endpoint where
  fileno : Nat
deriving DecidableEq

/-- A `KeyError` as raised by `del d[k]` on a missing key. -/
def keyError : PyExc := ⟨false, none, []⟩

abbrev Registry := List (Nat × Endpoint)

/-- Python dict assignment `d[k] = v`: overwrite in place, else append. -/
def dictSet : Registry → Nat → Endpoint → Registry
  | [], k, v => [(k, v)]
  | (k', v') :: rest, k, v =>
    if k' = k then (k', v) :: rest
    else (k', v') :: dictSet rest k v

/-- Python `del d[k]`: remove the entry or raise `KeyError`. -/
def dictDel : Registry → Nat → Except PyExc Registry
  | [], _ => .error keyError
  | (k', v') :: rest, k =>
    if k' = k then .ok rest
    else
      match dictDel rest k with
      | .ok rest' => .ok ((k', v') :: rest')
      | .error e => .error e

/-- One registry-affecting call on an `EventLoop`. -/
inductive RegOp where
  | add (f : Endpoint) (mode : Nat)
  | remove (f : Endpoint)
  | modify (f : Endpoint) (mode : Nat)

/-- The effect on `self._fd_to_f` of one call:
`add` (lines 195-200) does `self._fd_to_f[fd] = f`;
`remove` (lines 202-205) does `del self._fd_to_f[fd]`;
`modify` (lines 207-209) only calls `self._impl.modify_fd` and leaves the
registry untouched. -/
def applyRegOp (reg : Registry) : RegOp → Except PyExc Registry
  | .add f _ => .ok (dictSet reg f.fileno f)
  | .remove f => dictDel reg f.fileno
  | .modify _ _ => .ok reg

def applyRegOps : Registry → List RegOp → Except PyExc Registry
  | reg, [] => .ok reg
  | reg, op :: rest =>
    match applyRegOp reg op with
    | .ok reg' => applyRegOps reg' rest
    | .error e => .error e

def regKeys (reg : Registry) : List Nat := reg.map Prod.fst

/-- The claim's precondition on a call sequence: no `add` of a descriptor
already registered, no `remove` of a descriptor not registered. -/
def wfRegOps : Registry → List RegOp → Bool
  | _, [] => true
  | reg, .add f _ :: rest =>
    !decide (f.fileno ∈ regKeys reg) && wfRegOps (dictSet reg f.fileno f) rest
  | reg, .remove f :: rest =>
    decide (f.fileno ∈ regKeys reg) &&
      (match dictDel reg f.fileno with
       | .ok reg' => wfRegOps reg' rest
       | .error _ => false)
  | reg, .modify _ _ :: rest => wfRegOps reg rest

/-- Spec-side view (`Modelled from the spec's sentence` for the refinement
comparison): the last write a call sequence makes to descriptor `fd` —
`some (some f)` when the most recent add of `fd` is not followed by a
remove of `fd`, `some none` when a remove of `fd` comes later, `none` when
no call in the sequence writes `fd` at all. Modify never writes. -/
def lastWrite : List RegOp → Nat → Option (Option Endpoint)
  | [], _ => none
  | op :: rest, fd =>
    match lastWrite rest fd with
    | some v => some v
    | none =>
      match op with
      | .add f _ => if f.fileno = fd then some (some f) else none
      | .remove f => if f.fileno = fd then some none else none
      | .modify _ _ => none

/-! ## Further derived notions used in the statements -/

/-- Whether each element of the second list can be removed from the first
in sequence (the condition under which the pending-removal flush raises no
`ValueError`). -/
def canRemoveEach : List Handler → List Handler → Bool
  | _, [] => true
  | hs, h :: rest => decide (h ∈ hs) && canRemoveEach (hs.erase h) rest

/-- All removal requests a full dispatch of the cycle collects: the ones
already pending plus, in invocation order, each handler's own calls. -/
def pendingRequests (inp : CycleInput) (st : LoopState) : List Handler :=
  st.handlers_to_remove ++ st.handlers.flatMap fun h => (inp.behavior h).removals

/-- Sequential `list.remove` of each element of `pending` from `hs`. -/
def eraseAll (hs pending : List Handler) : List Handler :=
  pending.foldl (fun l h => l.erase h) hs

/-- Sequential `list.remove` on the reference list (guarded, `List.erase`). -/
def eraseAllR (rs pending : List Handler) : List Handler :=
  pending.foldl (fun l h => l.erase h) rs

/-- A poll-merge loop reduced to its atomic `results[fd] |= bit` touches. -/
def applyTouches : List (Nat × Nat) → List (Nat × Nat) → List (Nat × Nat)
  | m, [] => m
  | m, t :: ts => applyTouches (ddOr m t.1 t.2) ts

/-- OR-accumulation of the touches concerning `fd`. -/
def orTouches : Nat → Nat → List (Nat × Nat) → Nat
  | a, _, [] => a
  | a, fd, t :: ts => orTouches (if t.1 = fd then a ||| t.2 else a) fd ts

/-- The touches performed by the kqueue merge loop, in order. -/
def kqTouches (events : List KEvent) : List (Nat × Nat) :=
  events.filterMap fun e =>
    if e.filter = KQ_FILTER_READ then some (e.ident, POLL_IN)
    else if e.filter = KQ_FILTER_WRITE then some (e.ident, POLL_OUT)
    else none

/-- The touches performed by the select merge loop, in order. -/
def selTouches (r w x : List Nat) : List (Nat × Nat) :=
  (r.map fun fd => (fd, POLL_IN)) ++ (w.map fun fd => (fd, POLL_OUT)) ++
    (x.map fun fd => (fd, POLL_ERR))

/-- Lookup of a key in an association list (first match), i.e. `d[k]` on
the dict the list models. -/
def alistFind {α : Type} : List (Nat × α) → Nat → Option α
  | [], _ => none
  | (k, v) :: rest, fd => if k = fd then some v else alistFind rest fd

/-! ## Concrete instances used by witnesses and counterexamples -/

/-- Environment in which every handler removes itself and nothing fails. -/
def selfRemovingEnv : Nat → CycleInput :=
  fun _ => ⟨.ok [], fun h => ⟨[h], none⟩⟩

/-- One reference handler (id 1), loop idle. -/
def oneRefState : LoopState := ⟨[1], [1], [], false, []⟩

/-- The state after the single reference handler has removed itself. -/
def drainedState : LoopState := ⟨[], [], [], false, []⟩

/-- One cycle in which handler 1 removes handler 2 during its invocation. -/
def firstRemovesSecondInput : CycleInput :=
  ⟨.ok [], fun h => if h = 1 then ⟨[2], none⟩ else ⟨[], none⟩⟩

/-- Two registered reference handlers, loop idle. -/
def twoHandlerState : LoopState := ⟨[1, 2], [1, 2], [], false, []⟩

/-- One cycle in which the (only) handler raises a non-OSError
(`ValueError`). -/
def nonOSRaisingInput : CycleInput := ⟨.ok [], fun _ => ⟨[], some valueError⟩⟩

/-- An `OSError` with errno `EINTR` (a transient poll failure). -/
def eintrExc : PyExc := ⟨true, some (some EINTR), []⟩

/-- A cycle whose poll raises EINTR; the handler itself does nothing. -/
def eintrPollInput : CycleInput := ⟨.error eintrExc, fun _ => ⟨[], none⟩⟩

/-- An `OSError` with errno 5 (EIO): neither EINTR nor EPIPE. -/
def eioExc : PyExc := ⟨true, some (some 5), []⟩

/-- A cycle whose poll raises the non-transient EIO. -/
def eioPollInput : CycleInput := ⟨.error eioExc, fun _ => ⟨[], none⟩⟩

/-- A state that has a removal already pending (handler 2), so that the
pending-removal flush would visibly change it if it ran. -/
def pendingState : LoopState := ⟨[1, 2], [1], [2], false, []⟩

/-- A cycle whose poll raises an exception that is not an OSError/IOError
(e.g. a `KeyError` from the registry translation in `EventLoop.poll`). -/
def nonOSPollInput : CycleInput := ⟨.error valueError, fun _ => ⟨[], none⟩⟩

/-- A concrete well-formed registry call sequence: two adds, a modify, and
a remove. -/
def exRegOps : List RegOp :=
  [.add ⟨3⟩ POLL_IN, .add ⟨4⟩ POLL_OUT, .modify ⟨3⟩ POLL_OUT, .remove ⟨4⟩]

/-! # Theorems -/

/-- C8: `EventLoop` construction probes epoll, then kqueue, then select, in
that fixed priority order, instantiates exactly the first available one,
and raises an unrecoverable error (no backend instantiated) when none of
the three is available. -/
theorem chooseBackend_priority_and_failure (m : SelectModule) :
    (m.hasEpoll = true → chooseBackend m = .ok .epoll) ∧
    (m.hasEpoll = false → m.hasKqueue = true → chooseBackend m = .ok .kqueue) ∧
    (m.hasEpoll = false → m.hasKqueue = false → m.hasSelect = true →
      chooseBackend m = .ok .select) ∧
    (m.hasEpoll = false → m.hasKqueue = false → m.hasSelect = false →
      chooseBackend m =
        .error "can not find any available functions in select package") := by
  refine ⟨?_, ?_, ?_, ?_⟩ <;> intros <;> simp [chooseBackend, *]

/-- Witness for C8: on a host with only kqueue and select, kqueue wins; on
a host with nothing, construction fails. -/
theorem chooseBackend_priority_and_failure_witness :
    chooseBackend ⟨false, true, true⟩ = .ok .kqueue ∧
    chooseBackend ⟨false, false, false⟩ =
      .error "can not find any available functions in select package" :=
  ⟨(chooseBackend_priority_and_failure ⟨false, true, true⟩).2.1 rfl rfl,
    (chooseBackend_priority_and_failure ⟨false, false, false⟩).2.2.2 rfl rfl rfl⟩

/-- C10: kqueue's `_control` issues change requests only for the POLL_IN
and POLL_OUT bits of the requested mode, and select's `add_fd` touches only
the read/write/error sets for the POLL_IN/POLL_OUT/POLL_ERR bits; a mode
containing none of those bits establishes no native monitoring at all. -/
theorem backend_registration_uses_flag_subset :
    (∀ fd mode flags e, e ∈ kqueueControlEvents fd mode flags →
      (e.filter = KQ_FILTER_READ ∧ mode &&& POLL_IN ≠ 0) ∨
        (e.filter = KQ_FILTER_WRITE ∧ mode &&& POLL_OUT ≠ 0)) ∧
    (∀ fd mode flags, mode &&& POLL_IN = 0 → mode &&& POLL_OUT = 0 →
      kqueueControlEvents fd mode flags = []) ∧
    (∀ s fd mode, mode &&& POLL_IN = 0 → mode &&& POLL_OUT = 0 →
      mode &&& POLL_ERR = 0 → SelectLoop.add_fd s fd mode = s) := by
  refine ⟨?_, ?_, ?_⟩
  · intro fd mode flags e he
    unfold kqueueControlEvents at he
    rcases List.mem_append.1 he with h | h
    · by_cases hin : mode &&& POLL_IN ≠ 0
      · simp only [if_pos hin, List.mem_singleton] at h
        exact Or.inl ⟨by rw [h], hin⟩
      · simp [hin] at h
    · by_cases hout : mode &&& POLL_OUT ≠ 0
      · simp only [if_pos hout, List.mem_singleton] at h
        exact Or.inr ⟨by rw [h], hout⟩
      · simp [hout] at h
  · intro fd mode flags h1 h2
    simp [kqueueControlEvents, h1, h2]
  · intro s fd mode h1 h2 h3
    simp [SelectLoop.add_fd, h1, h2, h3]

/-- Witness for C10: a POLL_HUP-only registration produces no kqueue change
request and leaves the select interest sets untouched. -/
theorem backend_registration_uses_flag_subset_witness :
    kqueueControlEvents 3 POLL_HUP 1 = [] ∧
    SelectLoop.add_fd ⟨{2}, {3}, {4}⟩ 7 POLL_HUP = ⟨{2}, {3}, {4}⟩ :=
  ⟨backend_registration_uses_flag_subset.2.1 3 POLL_HUP 1 (by decide) (by decide),
    backend_registration_uses_flag_subset.2.2 ⟨{2}, {3}, {4}⟩ 7 POLL_HUP
      (by decide) (by decide) (by decide)⟩

/-! ### Lemmas on the defaultdict OR-merge -/

theorem alistFind_ddOr_self (m : List (Nat × Nat)) (fd bit : Nat) :
    alistFind (ddOr m fd bit) fd =
      some ((alistFind m fd).getD POLL_NULL ||| bit) := by
  induction m with
  | nil => simp [ddOr, alistFind]
  | cons p rest ih =>
    obtain ⟨k, v⟩ := p
    by_cases hk : k = fd
    · subst hk; simp [ddOr, alistFind]
    · simp [ddOr, alistFind, hk, ih]

theorem alistFind_ddOr_ne (m : List (Nat × Nat)) (fd bit fd' : Nat)
    (h : fd' ≠ fd) : alistFind (ddOr m fd bit) fd' = alistFind m fd' := by
  have h' : fd ≠ fd' := Ne.symm h
  induction m with
  | nil => simp [ddOr, alistFind, h']
  | cons p rest ih =>
    obtain ⟨k, v⟩ := p
    by_cases hk : k = fd
    · subst hk; simp [ddOr, alistFind, h']
    · simp [ddOr, alistFind, hk, ih]

theorem ddOr_keys (m : List (Nat × Nat)) (fd bit : Nat) :
    (ddOr m fd bit).map Prod.fst =
      if fd ∈ m.map Prod.fst then m.map Prod.fst
      else m.map Prod.fst ++ [fd] := by
  induction m with
  | nil => simp [ddOr]
  | cons p rest ih =>
    obtain ⟨k, v⟩ := p
    by_cases hk : k = fd
    · subst hk; simp [ddOr]
    · have hk' : fd ≠ k := Ne.symm hk
      by_cases hmem : fd ∈ rest.map Prod.fst
      · simp [ddOr, hk, ih, hmem, hk']
      · simp [ddOr, hk, ih, hmem, hk']

theorem ddOr_keys_nodup (m : List (Nat × Nat)) (fd bit : Nat)
    (h : (m.map Prod.fst).Nodup) :
    ((ddOr m fd bit).map Prod.fst).Nodup := by
  rw [ddOr_keys]
  by_cases hmem : fd ∈ m.map Prod.fst
  · simpa [hmem] using h
  · rw [if_neg hmem]
    refine h.append (List.nodup_singleton fd) ?_
    intro a ha hb
    rw [List.mem_singleton] at hb
    subst hb
    exact hmem ha

theorem orTouches_not_mem (ts : List (Nat × Nat)) (fd : Nat)
    (h : fd ∉ ts.map Prod.fst) : ∀ a, orTouches a fd ts = a := by
  induction ts with
  | nil => intro a; rfl
  | cons t ts ih =>
    intro a
    obtain ⟨k, bit⟩ := t
    simp only [List.map_cons, List.mem_cons] at h
    push_neg at h
    simp only [orTouches, if_neg (fun hh : k = fd => h.1 hh.symm)]
    exact ih h.2 a

theorem alistFind_applyTouches (ts : List (Nat × Nat)) :
    ∀ (m : List (Nat × Nat)) (fd : Nat),
      alistFind (applyTouches m ts) fd =
        if fd ∈ ts.map Prod.fst then
          some (orTouches ((alistFind m fd).getD POLL_NULL) fd ts)
        else alistFind m fd := by
  induction ts with
  | nil => intro m fd; simp [applyTouches]
  | cons t ts ih =>
    intro m fd
    obtain ⟨k, bit⟩ := t
    simp only [applyTouches, List.map_cons, List.mem_cons]
    rw [ih]
    by_cases hk : k = fd
    · subst hk
      rw [alistFind_ddOr_self m k bit]
      by_cases hmem : k ∈ ts.map Prod.fst
      · simp [hmem, orTouches]
      · simp [hmem, orTouches, orTouches_not_mem ts k hmem]
    · have hne : fd ≠ k := Ne.symm hk
      rw [alistFind_ddOr_ne m k bit fd hne]
      by_cases hmem : fd ∈ ts.map Prod.fst
      · simp [hmem, orTouches, hk]
      · simp [hmem, hne, orTouches, hk]

theorem applyTouches_keys_nodup (ts : List (Nat × Nat)) :
    ∀ m : List (Nat × Nat), (m.map Prod.fst).Nodup →
      ((applyTouches m ts).map Prod.fst).Nodup := by
  induction ts with
  | nil => intro m h; exact h
  | cons t ts ih =>
    intro m h
    exact ih _ (ddOr_keys_nodup m t.1 t.2 h)

theorem applyTouches_append (ts us : List (Nat × Nat)) :
    ∀ m, applyTouches m (ts ++ us) = applyTouches (applyTouches m ts) us := by
  induction ts with
  | nil => intro m; rfl
  | cons t ts ih =>
    intro m
    rw [List.cons_append]
    show applyTouches (ddOr m t.1 t.2) (ts ++ us) = _
    rw [ih]
    rfl

theorem orTouches_append (ts us : List (Nat × Nat)) (fd : Nat) :
    ∀ a, orTouches a fd (ts ++ us) = orTouches (orTouches a fd ts) fd us := by
  induction ts with
  | nil => intro a; rfl
  | cons t ts ih =>
    intro a
    rw [List.cons_append]
    show orTouches (if t.1 = fd then a ||| t.2 else a) fd (ts ++ us) = _
    rw [ih]
    rfl

/-! ### Bridging the two poll merge loops to their touch sequences -/

theorem kqueuePollMerge_eq_touches (evs : List KEvent) :
    kqueuePollMerge evs = applyTouches [] (kqTouches evs) := by
  suffices h : ∀ m : List (Nat × Nat),
      evs.foldl
        (fun m e =>
          if e.filter = KQ_FILTER_READ then ddOr m e.ident POLL_IN
          else if e.filter = KQ_FILTER_WRITE then ddOr m e.ident POLL_OUT
          else m)
        m = applyTouches m (kqTouches evs) from h []
  induction evs with
  | nil => intro m; rfl
  | cons e evs ih =>
    intro m
    simp only [List.foldl_cons, kqTouches, List.filterMap_cons]
    by_cases h1 : e.filter = KQ_FILTER_READ
    · simp only [if_pos h1]
      exact ih (ddOr m e.ident POLL_IN)
    · by_cases h2 : e.filter = KQ_FILTER_WRITE
      · simp only [if_neg h1, if_pos h2]
        exact ih (ddOr m e.ident POLL_OUT)
      · simp only [if_neg h1, if_neg h2]
        exact ih m

theorem kqSpecFlags_eq_touches (evs : List KEvent) (fd : Nat) :
    kqSpecFlags evs fd = orTouches POLL_NULL fd (kqTouches evs) := by
  suffices h : ∀ a : Nat,
      evs.foldl (fun a e => if e.ident = fd then a ||| kqContrib e else a) a =
        orTouches a fd (kqTouches evs) from h POLL_NULL
  induction evs with
  | nil => intro a; rfl
  | cons e evs ih =>
    intro a
    simp only [List.foldl_cons, kqTouches, List.filterMap_cons]
    by_cases h1 : e.filter = KQ_FILTER_READ
    · rw [if_pos h1]
      show _ = orTouches a fd ((e.ident, POLL_IN) :: List.filterMap _ evs)
      rw [ih]
      show orTouches _ fd (kqTouches evs) = orTouches _ fd (kqTouches evs)
      simp [kqContrib, h1]
    · by_cases h2 : e.filter = KQ_FILTER_WRITE
      · rw [if_neg h1, if_pos h2]
        show _ = orTouches a fd ((e.ident, POLL_OUT) :: List.filterMap _ evs)
        rw [ih]
        show orTouches _ fd (kqTouches evs) = orTouches _ fd (kqTouches evs)
        simp [kqContrib, h1, h2, KQ_FILTER_READ, KQ_FILTER_WRITE]
      · rw [if_neg h1, if_neg h2, ih]
        show orTouches _ fd (kqTouches evs) = orTouches _ fd (kqTouches evs)
        simp [kqContrib, h1, h2, POLL_NULL, Nat.or_zero]

theorem selInner_eq_touches (l : List Nat) (bit : Nat) :
    ∀ m, l.foldl (fun m fd => ddOr m fd bit) m =
      applyTouches m (l.map fun fd => (fd, bit)) := by
  induction l with
  | nil => intro m; rfl
  | cons k l ih =>
    intro m
    rw [List.foldl_cons, List.map_cons]
    show l.foldl _ (ddOr m k bit) = applyTouches (ddOr m k bit) _
    exact ih (ddOr m k bit)

theorem selectPollMerge_eq_touches (r w x : List Nat) :
    selectPollMerge r w x = applyTouches [] (selTouches r w x) := by
  simp only [selectPollMerge, List.foldl_cons, List.foldl_nil]
  rw [selInner_eq_touches r POLL_IN, selInner_eq_touches w POLL_OUT,
    selInner_eq_touches x POLL_ERR, selTouches, applyTouches_append,
    applyTouches_append]

theorem selInnerSpec_eq_touches (l : List Nat) (bit fd : Nat) :
    ∀ a, l.foldl (fun a k => if k = fd then a ||| bit else a) a =
      orTouches a fd (l.map fun k => (k, bit)) := by
  induction l with
  | nil => intro a; rfl
  | cons k l ih =>
    intro a
    rw [List.foldl_cons, List.map_cons]
    show l.foldl _ _ = orTouches (if k = fd then a ||| bit else a) fd _
    exact ih _

theorem selSpecFlags_eq_touches (r w x : List Nat) (fd : Nat) :
    selSpecFlags r w x fd = orTouches POLL_NULL fd (selTouches r w x) := by
  simp only [selSpecFlags, List.foldl_cons, List.foldl_nil]
  rw [selInnerSpec_eq_touches r POLL_IN fd, selInnerSpec_eq_touches w
    POLL_OUT fd, selInnerSpec_eq_touches x POLL_ERR fd, selTouches,
    orTouches_append, orTouches_append]

/-- C7: in both the kqueue and the select poll merge, the returned sequence
contains each descriptor at most once (its key list has no duplicates), and
the flags paired with a descriptor are exactly the OR, from a zero
accumulator, of the flags contributed by each filter/ready-set in which it
was reported. -/
theorem pollMerge_descriptor_once_flags_or :
    (∀ evs fd v, ((kqueuePollMerge evs).map Prod.fst).Nodup ∧
      (alistFind (kqueuePollMerge evs) fd = some v → v = kqSpecFlags evs fd)) ∧
    (∀ r w x fd v, ((selectPollMerge r w x).map Prod.fst).Nodup ∧
      (alistFind (selectPollMerge r w x) fd = some v →
        v = selSpecFlags r w x fd)) := by
  constructor
  · intro evs fd v
    rw [kqueuePollMerge_eq_touches]
    refine ⟨applyTouches_keys_nodup _ [] (by simp), ?_⟩
    intro h
    rw [alistFind_applyTouches] at h
    by_cases hmem : fd ∈ (kqTouches evs).map Prod.fst
    · rw [if_pos hmem] at h
      rw [kqSpecFlags_eq_touches]
      simpa [alistFind] using h.symm
    · rw [if_neg hmem] at h
      simp [alistFind] at h
  · intro r w x fd v
    rw [selectPollMerge_eq_touches]
    refine ⟨applyTouches_keys_nodup _ [] (by simp), ?_⟩
    intro h
    rw [alistFind_applyTouches] at h
    by_cases hmem : fd ∈ (selTouches r w x).map Prod.fst
    · rw [if_pos hmem] at h
      rw [selSpecFlags_eq_touches]
      simpa [alistFind] using h.symm
    · rw [if_neg hmem] at h
      simp [alistFind] at h

/-- Witness for C7: a descriptor reported ready by both the read and the
write filter of kqueue, and by both the read and write set of select, comes
back once with `POLL_IN ||| POLL_OUT`. -/
theorem pollMerge_descriptor_once_flags_or_witness :
    (POLL_IN ||| POLL_OUT) =
        kqSpecFlags [⟨5, KQ_FILTER_READ, 0⟩, ⟨5, KQ_FILTER_WRITE, 0⟩] 5 ∧
    (POLL_IN ||| POLL_OUT) = selSpecFlags [5] [5] [] 5 ∧
    kqueuePollMerge [⟨5, KQ_FILTER_READ, 0⟩, ⟨5, KQ_FILTER_WRITE, 0⟩] =
      [(5, POLL_IN ||| POLL_OUT)] ∧
    selectPollMerge [5] [5] [] = [(5, POLL_IN ||| POLL_OUT)] :=
  ⟨(pollMerge_descriptor_once_flags_or.1
      [⟨5, KQ_FILTER_READ, 0⟩, ⟨5, KQ_FILTER_WRITE, 0⟩] 5
      (POLL_IN ||| POLL_OUT)).2 (by decide),
    (pollMerge_descriptor_once_flags_or.2 [5] [5] [] 5
      (POLL_IN ||| POLL_OUT)).2 (by decide),
    by decide, by decide⟩

/-! ### Lemmas on the dispatch loop -/

theorem remove_handler_eq (st : LoopState) (h : Handler) :
    remove_handler st h =
      if st.iterating then
        .ok { st with ref_handlers := st.ref_handlers.erase h,
                      handlers_to_remove := st.handlers_to_remove ++ [h] }
      else if h ∈ st.handlers then
        .ok { st with ref_handlers := st.ref_handlers.erase h,
                      handlers := st.handlers.erase h }
      else .error valueError := by
  unfold remove_handler
  by_cases href : h ∈ st.ref_handlers
  · simp [href]
  · simp [href, List.erase_of_not_mem href]

theorem remove_handler_iterating (st : LoopState) (h : Handler)
    (hit : st.iterating = true) :
    remove_handler st h =
      .ok { st with ref_handlers := st.ref_handlers.erase h,
                    handlers_to_remove := st.handlers_to_remove ++ [h] } := by
  rw [remove_handler_eq]
  simp [hit]

theorem remove_handler_ok_ref (st : LoopState) (h : Handler) (st' : LoopState)
    (hok : remove_handler st h = .ok st') :
    st'.ref_handlers = st.ref_handlers.erase h := by
  rw [remove_handler_eq] at hok
  split at hok
  · injection hok with hok
    subst hok
    rfl
  · split at hok
    · injection hok with hok
      subst hok
      rfl
    · simp at hok

theorem remove_handler_iter_mk (hs rs pend : List Handler)
    (ev : List (Nat × Nat)) (h : Handler) :
    remove_handler ⟨hs, rs, pend, true, ev⟩ h =
      .ok ⟨hs, rs.erase h, pend ++ [h], true, ev⟩ :=
  remove_handler_iterating ⟨hs, rs, pend, true, ev⟩ h rfl

theorem applyCalls_iter_mk (ls : List Handler) :
    ∀ (hs rs pend : List Handler) (ev : List (Nat × Nat)),
      applyCalls ⟨hs, rs, pend, true, ev⟩ ls =
        .ok ⟨hs, ls.foldl (fun l h => l.erase h) rs, pend ++ ls, true, ev⟩ := by
  induction ls with
  | nil =>
    intro hs rs pend ev
    simp [applyCalls]
  | cons h t ih =>
    intro hs rs pend ev
    unfold applyCalls
    rw [remove_handler_iter_mk]
    simp only [ih]
    simp [List.append_assoc]

theorem invokeHandler_iter_mk (beh : HandlerBehavior)
    (hs rs pend : List Handler) (ev : List (Nat × Nat))
    (hraise : ∀ e, beh.raises = some e → e.isOSError = true) :
    invokeHandler beh ⟨hs, rs, pend, true, ev⟩ =
      .ok (⟨hs, beh.removals.foldl (fun l h => l.erase h) rs,
          pend ++ beh.removals, true, ev⟩,
        if beh.raises.isSome then [.errorHandler] else []) := by
  unfold invokeHandler
  rw [applyCalls_iter_mk]
  cases hr : beh.raises with
  | none => simp
  | some e => simp [hraise e hr]

theorem dispatch_iter_mk (hs2 : List Handler) (inp : CycleInput) :
    ∀ (hs rs pend : List Handler) (ev : List (Nat × Nat)),
      (∀ h ∈ hs2, ∀ e, (inp.behavior h).raises = some e →
        e.isOSError = true) →
      ∃ logs, dispatch hs2 inp ⟨hs, rs, pend, true, ev⟩ =
        .ok (⟨hs,
            (hs2.flatMap fun h => (inp.behavior h).removals).foldl
              (fun l h => l.erase h) rs,
            pend ++ hs2.flatMap fun h => (inp.behavior h).removals,
            true, ev⟩,
          ⟨hs2, logs⟩) := by
  induction hs2 with
  | nil =>
    intro hs rs pend ev hr
    exact ⟨[], by simp [dispatch]⟩
  | cons h t ih =>
    intro hs rs pend ev hr
    obtain ⟨logs, hd⟩ := ih hs
      ((inp.behavior h).removals.foldl (fun l h => l.erase h) rs)
      (pend ++ (inp.behavior h).removals) ev
      (fun h2 hm => hr h2 (List.mem_cons_of_mem h hm))
    refine ⟨(if (inp.behavior h).raises.isSome then [LogEv.errorHandler]
      else []) ++ logs, ?_⟩
    unfold dispatch
    rw [invokeHandler_iter_mk (inp.behavior h) hs rs pend ev
      (hr h (List.mem_cons_self h t))]
    simp only [hd]
    simp [List.flatMap_cons, List.foldl_append, List.append_assoc]

/-- `invokeHandler` on an iterating state, with no assumption on what the
handler raises: the state outcome in each of the three cases. -/
theorem invokeHandler_mk_cases (beh : HandlerBehavior)
    (hs rs pend : List Handler) (ev : List (Nat × Nat)) :
    invokeHandler beh ⟨hs, rs, pend, true, ev⟩ =
      (match beh.raises with
       | none =>
         .ok (⟨hs, beh.removals.foldl (fun l h => l.erase h) rs,
           pend ++ beh.removals, true, ev⟩, [])
       | some e =>
         if e.isOSError then
           .ok (⟨hs, beh.removals.foldl (fun l h => l.erase h) rs,
             pend ++ beh.removals, true, ev⟩, [.errorHandler])
         else
           .error (e, ⟨hs, beh.removals.foldl (fun l h => l.erase h) rs,
             pend ++ beh.removals, true, ev⟩)) := by
  unfold invokeHandler
  rw [applyCalls_iter_mk]

theorem dispatch_mk_preserves_step (inp : CycleInput) (h : Handler)
    (t : List Handler) (hs rs pend : List Handler) (ev : List (Nat × Nat))
    (rs2 pend2 : List Handler) (L : List LogEv)
    (hmk : invokeHandler (inp.behavior h) ⟨hs, rs, pend, true, ev⟩ =
      .ok (⟨hs, rs2, pend2, true, ev⟩, L))
    (ihA : (∀ st1 tr, dispatch t inp ⟨hs, rs2, pend2, true, ev⟩ =
          .ok (st1, tr) → st1.handlers = hs ∧ st1.iterating = true) ∧
      (∀ e st1, dispatch t inp ⟨hs, rs2, pend2, true, ev⟩ =
          .error (e, st1) → st1.handlers = hs ∧ st1.iterating = true)) :
    (∀ st1 tr, dispatch (h :: t) inp ⟨hs, rs, pend, true, ev⟩ =
        .ok (st1, tr) → st1.handlers = hs ∧ st1.iterating = true) ∧
    (∀ e st1, dispatch (h :: t) inp ⟨hs, rs, pend, true, ev⟩ =
        .error (e, st1) → st1.handlers = hs ∧ st1.iterating = true) := by
  constructor
  · intro st1 tr hok
    unfold dispatch at hok
    rw [hmk] at hok
    simp only [] at hok
    cases hd : dispatch t inp ⟨hs, rs2, pend2, true, ev⟩ with
    | ok q =>
      obtain ⟨stb, trb⟩ := q
      rw [hd] at hok
      simp only [] at hok
      injection hok with hok
      injection hok with hok1 hok2
      subst hok1
      exact ihA.1 _ trb hd
    | error es =>
      rw [hd] at hok
      simp at hok
  · intro e st1 hok
    unfold dispatch at hok
    rw [hmk] at hok
    simp only [] at hok
    cases hd : dispatch t inp ⟨hs, rs2, pend2, true, ev⟩ with
    | ok q =>
      obtain ⟨stb, trb⟩ := q
      rw [hd] at hok
      simp at hok
    | error es =>
      obtain ⟨e2, stb⟩ := es
      rw [hd] at hok
      simp only [] at hok
      injection hok with hok
      injection hok with hok1 hok2
      subst hok2
      exact ihA.2 e2 _ hd

theorem dispatch_mk_preserves (hs2 : List Handler) (inp : CycleInput) :
    ∀ (hs rs pend : List Handler) (ev : List (Nat × Nat)),
      (∀ st1 tr, dispatch hs2 inp ⟨hs, rs, pend, true, ev⟩ = .ok (st1, tr) →
        st1.handlers = hs ∧ st1.iterating = true) ∧
      (∀ e st1, dispatch hs2 inp ⟨hs, rs, pend, true, ev⟩ =
          .error (e, st1) →
        st1.handlers = hs ∧ st1.iterating = true) := by
  induction hs2 with
  | nil =>
    intro hs rs pend ev
    constructor
    · intro st1 tr hok
      simp only [dispatch] at hok
      injection hok with hok
      injection hok with hok1 hok2
      subst hok1
      exact ⟨rfl, rfl⟩
    · intro e st1 hok
      simp [dispatch] at hok
  | cons h t ih =>
    intro hs rs pend ev
    have hmk := invokeHandler_mk_cases (inp.behavior h) hs rs pend ev
    cases hb : (inp.behavior h).raises with
    | none =>
      rw [hb] at hmk
      simp only [] at hmk
      exact dispatch_mk_preserves_step inp h t hs rs pend ev _ _ _ hmk
        (ih hs _ _ ev)
    | some e2 =>
      rw [hb] at hmk
      simp only [] at hmk
      by_cases hos : e2.isOSError = true
      · rw [if_pos hos] at hmk
        exact dispatch_mk_preserves_step inp h t hs rs pend ev _ _ _ hmk
          (ih hs _ _ ev)
      · rw [if_neg hos] at hmk
        constructor
        · intro st1 tr hok
          unfold dispatch at hok
          rw [hmk] at hok
          simp at hok
        · intro e st1 hok
          unfold dispatch at hok
          rw [hmk] at hok
          simp only [] at hok
          injection hok with hok
          injection hok with hok1 hok2
          subst hok2
          exact ⟨rfl, rfl⟩

theorem removeEach_ok_of_can (pending : List Handler) :
    ∀ hs : List Handler, canRemoveEach hs pending = true →
      removeEach hs pending = .ok (eraseAll hs pending) := by
  induction pending with
  | nil => intro hs _; rfl
  | cons h t ih =>
    intro hs hcan
    unfold canRemoveEach at hcan
    rw [Bool.and_eq_true] at hcan
    have hmem : h ∈ hs := of_decide_eq_true hcan.1
    unfold removeEach
    rw [if_pos hmem, ih (hs.erase h) hcan.2]
    rfl

theorem applyPendingRemovals_ok (st : LoopState)
    (hcan : canRemoveEach st.handlers st.handlers_to_remove = true) :
    applyPendingRemovals st =
      .ok { st with
        handlers := eraseAll st.handlers st.handlers_to_remove,
        handlers_to_remove := [] } := by
  unfold applyPendingRemovals
  by_cases hp : st.handlers_to_remove = []
  · rw [if_pos hp]
    rw [show eraseAll st.handlers st.handlers_to_remove = st.handlers from
      by rw [hp]; rfl]
    rw [← hp]
  · rw [if_neg hp, removeEach_ok_of_can _ _ hcan]

theorem dispatchPhase_ok (inp : CycleInput) (st : LoopState)
    (hraise : ∀ h ∈ st.handlers, ∀ e,
      (inp.behavior h).raises = some e → e.isOSError = true)
    (hcan : canRemoveEach st.handlers (pendingRequests inp st) = true) :
    ∃ logs, dispatchPhase inp st =
      .ok (⟨eraseAll st.handlers (pendingRequests inp st),
          (st.handlers.flatMap fun h => (inp.behavior h).removals).foldl
            (fun l h => l.erase h) st.ref_handlers,
          [], false, st.events⟩,
        ⟨st.handlers, logs⟩) := by
  obtain ⟨logs, hd⟩ := dispatch_iter_mk st.handlers inp st.handlers
    st.ref_handlers st.handlers_to_remove st.events hraise
  refine ⟨logs, ?_⟩
  unfold dispatchPhase
  rw [hd]
  simp only [applyPendingRemovals_ok
    ⟨st.handlers,
      (st.handlers.flatMap fun h => (inp.behavior h).removals).foldl
        (fun l h => l.erase h) st.ref_handlers,
      st.handlers_to_remove ++
        st.handlers.flatMap fun h => (inp.behavior h).removals,
      true, st.events⟩ hcan]
  rfl

/-! ### Unfolding equations for the fuelled loop -/

theorem runLoop_zero (env : Nat → CycleInput) (i : Nat) (st : LoopState) :
    runLoop env i 0 st =
      if st.ref_handlers = [] then .returned st else .outOfFuel st := rfl

theorem runLoop_succ_eq (env : Nat → CycleInput) (i fuel : Nat)
    (st : LoopState) :
    runLoop env i (fuel + 1) st =
      if st.ref_handlers = [] then .returned st
      else
        match runCycle (env i) st with
        | .ok (st1, _) => runLoop env (i + 1) fuel st1
        | .error (e2, st1) => .raised e2 st1 := rfl

theorem cyclesFrom_zero (env : Nat → CycleInput) (i : Nat) (st : LoopState) :
    cyclesFrom env i 0 st = some st := rfl

theorem cyclesFrom_succ (env : Nat → CycleInput) (i k : Nat)
    (st : LoopState) :
    cyclesFrom env i (k + 1) st =
      match runCycle (env i) st with
      | .ok (st1, _) => cyclesFrom env (i + 1) k st1
      | .error _ => none := rfl

theorem runLoop_returned_characterization (env : Nat → CycleInput) :
    ∀ (fuel i : Nat) (st st' : LoopState),
      runLoop env i fuel st = .returned st' →
      st'.ref_handlers = [] ∧
      ∃ k, k ≤ fuel ∧ cyclesFrom env i k st = some st' ∧
        ∀ j stj, j < k → cyclesFrom env i j st = some stj →
          stj.ref_handlers ≠ [] := by
  intro fuel
  induction fuel with
  | zero =>
    intro i st st' hret
    rw [runLoop_zero] at hret
    by_cases href : st.ref_handlers = []
    · rw [if_pos href] at hret
      injection hret with hret
      subst hret
      exact ⟨href, 0, Nat.le_refl 0, rfl,
        fun j stj hj _ => absurd hj (Nat.not_lt_zero j)⟩
    · rw [if_neg href] at hret
      simp at hret
  | succ fuel ih =>
    intro i st st' hret
    rw [runLoop_succ_eq] at hret
    by_cases href : st.ref_handlers = []
    · rw [if_pos href] at hret
      injection hret with hret
      subst hret
      exact ⟨href, 0, Nat.zero_le _, rfl,
        fun j stj hj _ => absurd hj (Nat.not_lt_zero j)⟩
    · rw [if_neg href] at hret
      cases hcyc : runCycle (env i) st with
      | ok p =>
        obtain ⟨st1, tr⟩ := p
        rw [hcyc] at hret
        simp only [] at hret
        obtain ⟨hempty, k, hk, hcyk, hfirst⟩ := ih (i + 1) st1 st' hret
        refine ⟨hempty, k + 1, Nat.succ_le_succ hk, ?_, ?_⟩
        · rw [cyclesFrom_succ, hcyc]
          exact hcyk
        · intro j stj hj hcj
          cases j with
          | zero =>
            rw [cyclesFrom_zero] at hcj
            injection hcj with hcj
            subst hcj
            exact href
          | succ j =>
            rw [cyclesFrom_succ, hcyc] at hcj
            simp only [] at hcj
            exact hfirst j stj (Nat.lt_of_succ_lt_succ hj) hcj
      | error p =>
        rw [hcyc] at hret
        simp at hret

/-- C1: `run()` returns exactly when the reference-handler list is empty.
The emptiness test is the `while` condition at the top of each cycle, so a
normal return leaves an empty reference list, happens only at a cycle
boundary (after a whole number of complete cycles), and happens at the
first boundary at which the reference list is empty; conversely an empty
reference list at the top makes `run()` return immediately. -/
theorem run_returns_exactly_when_refs_empty (env : Nat → CycleInput)
    (fuel : Nat) (st : LoopState) :
    (∀ st', run env fuel st = .returned st' →
      st'.ref_handlers = [] ∧
      ∃ k, k ≤ fuel ∧
        cyclesFrom env 0 k { st with events := [] } = some st' ∧
        ∀ j stj, j < k →
          cyclesFrom env 0 j { st with events := [] } = some stj →
          stj.ref_handlers ≠ []) ∧
    (st.ref_handlers = [] →
      run env fuel st = .returned { st with events := [] }) := by
  constructor
  · intro st' h
    exact runLoop_returned_characterization env fuel 0 _ st' h
  · intro h
    unfold run
    cases fuel with
    | zero =>
      rw [runLoop_zero]
      simp [h]
    | succ fuel =>
      rw [runLoop_succ_eq]
      simp [h]

/-- Witness for C1: a single self-removing reference handler makes `run`
return after one cycle, with the reference list empty, and a loop whose
reference list is already empty returns at once. -/
theorem run_returns_exactly_when_refs_empty_witness :
    (drainedState.ref_handlers = [] ∧
      ∃ k, k ≤ 2 ∧
        cyclesFrom selfRemovingEnv 0 k { oneRefState with events := [] } =
          some drainedState ∧
        ∀ j stj, j < k →
          cyclesFrom selfRemovingEnv 0 j { oneRefState with events := [] } =
            some stj →
          stj.ref_handlers ≠ []) ∧
    run selfRemovingEnv 2 drainedState =
      .returned { drainedState with events := [] } :=
  ⟨(run_returns_exactly_when_refs_empty selfRemovingEnv 2 oneRefState).1
      drainedState rfl,
    (run_returns_exactly_when_refs_empty selfRemovingEnv 2 drainedState).2
      rfl⟩

/-- C2: while the loop is iterating, `remove_handler` never mutates the
live handler list and instead appends to the pending-removal list; the
reference list is purged immediately regardless of iteration state; the
live list is unchanged across the whole dispatch of a cycle (also when a
handler exception propagates); and the flush applies every pending removal
to the live list and clears the pending list. -/
theorem remove_handler_deferred_while_iterating :
    (∀ st h, st.iterating = true →
      remove_handler st h =
        .ok { st with ref_handlers := st.ref_handlers.erase h,
                      handlers_to_remove := st.handlers_to_remove ++ [h] }) ∧
    (∀ st h st', remove_handler st h = .ok st' →
      st'.ref_handlers = st.ref_handlers.erase h) ∧
    (∀ hs2 inp hs rs pend ev,
      (∀ st1 tr, dispatch hs2 inp ⟨hs, rs, pend, true, ev⟩ = .ok (st1, tr) →
        st1.handlers = hs) ∧
      (∀ e st1, dispatch hs2 inp ⟨hs, rs, pend, true, ev⟩ =
          .error (e, st1) → st1.handlers = hs)) ∧
    (∀ st, canRemoveEach st.handlers st.handlers_to_remove = true →
      applyPendingRemovals st =
        .ok { st with
          handlers := eraseAll st.handlers st.handlers_to_remove,
          handlers_to_remove := [] }) := by
  refine ⟨remove_handler_iterating, remove_handler_ok_ref, ?_,
    applyPendingRemovals_ok⟩
  intro hs2 inp hs rs pend ev
  constructor
  · intro st1 tr h
    exact ((dispatch_mk_preserves hs2 inp hs rs pend ev).1 st1 tr h).1
  · intro e st1 h
    exact ((dispatch_mk_preserves hs2 inp hs rs pend ev).2 e st1 h).1

/-- Witness for C2 at concrete states. -/
theorem remove_handler_deferred_while_iterating_witness :
    (remove_handler ⟨[1, 2], [1, 2], [], true, []⟩ 2 =
      .ok ⟨[1, 2], ([1, 2] : List Handler).erase 2, [2], true, []⟩) ∧
    ((⟨[1, 2], [1], [2], true, []⟩ : LoopState).ref_handlers =
      ([1, 2] : List Handler).erase 2) ∧
    ((⟨[1, 2], [1], [2], true, []⟩ : LoopState).handlers =
      ([1, 2] : List Handler)) ∧
    (applyPendingRemovals ⟨[1, 2], [1], [2], true, []⟩ =
      .ok ⟨eraseAll [1, 2] [2], [1], [], true, []⟩) :=
  ⟨remove_handler_deferred_while_iterating.1
      ⟨[1, 2], [1, 2], [], true, []⟩ 2 rfl,
    remove_handler_deferred_while_iterating.2.1
      ⟨[1, 2], [1, 2], [], true, []⟩ 2 ⟨[1, 2], [1], [2], true, []⟩ rfl,
    (remove_handler_deferred_while_iterating.2.2.1 [1, 2]
        firstRemovesSecondInput [1, 2] [1, 2] [] []).1
      ⟨[1, 2], [1], [2], true, []⟩ ⟨[1, 2], []⟩ rfl,
    remove_handler_deferred_while_iterating.2.2.2
      ⟨[1, 2], [1], [2], true, []⟩ rfl⟩

/-- Counterexample to C3: with handlers `[1, 2]` where handler 1 removes
handler 2 during its own invocation, handler 2 IS still invoked in that
same cycle (the invocation trace is `[1, 2]`), because the removal is
deferred; it is only the next cycle's list that no longer contains it. -/
theorem second_handler_invoked_despite_removal :
    runCycle firstRemovesSecondInput twoHandlerState =
      .ok (⟨[1], [1], [], false, []⟩, ⟨[1, 2], []⟩) ∧
    (([1, 2] : List Handler).contains 2 = true) := ⟨rfl, rfl⟩

/-- C3 (amended): in a cycle with two registered handlers where the first
removes the second during its own invocation, the second handler IS still
invoked in that same cycle (deferred removal keeps the live list stable),
and the second handler is absent from the live handler list for the
subsequent cycle. -/
theorem removal_of_second_handler_deferred_one_cycle
    (h1 h2 : Handler) (st : LoopState) (inp : CycleInput)
    (evs : List (Nat × Nat)) (hne : h1 ≠ h2)
    (hhs : st.handlers = [h1, h2])
    (hpend : st.handlers_to_remove = [])
    (hpoll : inp.pollResult = .ok evs)
    (hb1 : inp.behavior h1 = ⟨[h2], none⟩)
    (hb2 : inp.behavior h2 = ⟨[], none⟩) :
    ∃ st' tr, runCycle inp st = .ok (st', tr) ∧
      tr.invoked = [h1, h2] ∧ st'.handlers = [h1] := by
  have hraise : ∀ h ∈ st.handlers, ∀ e,
      (inp.behavior h).raises = some e → e.isOSError = true := by
    rw [hhs]
    intro h hm e he
    rcases List.mem_cons.1 hm with rfl | hm2
    · rw [hb1] at he
      exact Option.noConfusion he
    · rcases List.mem_cons.1 hm2 with rfl | hm3
      · rw [hb2] at he
        exact Option.noConfusion he
      · exact absurd hm3 (List.not_mem_nil h)
  have hpr : pendingRequests inp st = [h2] := by
    unfold pendingRequests
    rw [hhs, hpend]
    simp [hb1, hb2]
  have hcan : canRemoveEach st.handlers (pendingRequests inp st) = true := by
    rw [hpr, hhs]
    simp [canRemoveEach]
  obtain ⟨logs, hd⟩ := dispatchPhase_ok inp { st with events := evs }
    hraise hcan
  have hc : runCycle inp st = dispatchPhase inp { st with events := evs } := by
    unfold runCycle
    rw [hpoll]
  rw [hd] at hc
  have hY : eraseAll ({ st with events := evs } : LoopState).handlers
      (pendingRequests inp { st with events := evs }) = [h1] := by
    rw [show pendingRequests inp { st with events := evs } =
      pendingRequests inp st from rfl]
    rw [hpr]
    show eraseAll st.handlers [h2] = [h1]
    rw [hhs]
    show ([h1, h2] : List Handler).erase h2 = [h1]
    simp [List.erase_cons, hne]
  exact ⟨_, _, hc, hhs, hY⟩

/-- Witness for C3 (amended) at the concrete two-handler instance. -/
theorem removal_of_second_handler_deferred_one_cycle_witness :
    ∃ st' tr, runCycle firstRemovesSecondInput twoHandlerState =
      .ok (st', tr) ∧ tr.invoked = [1, 2] ∧ st'.handlers = [1] :=
  removal_of_second_handler_deferred_one_cycle 1 2 twoHandlerState
    firstRemovesSecondInput [] (by decide) rfl rfl rfl rfl rfl

/-- Counterexample to C4: a handler that raises a `ValueError` (not an
OSError/IOError) makes the exception propagate out of `run()`: the
outcome is `raised`, not a normal return, so not every exception from a
handler is caught. -/
theorem run_lets_non_os_exception_escape :
    run (fun _ => nonOSRaisingInput) 1 oneRefState =
      .raised valueError ⟨[1], [1], [], true, []⟩ := rfl

/-- C4 (amended): `run()`'s cycle catches exactly the `(OSError, IOError)`
exceptions raised by the poll call or by handler invocations (given
well-formed removal requests, the cycle then completes normally); an
exception of any other class raised by the poll call propagates out
unchanged. -/
theorem runCycle_catches_exactly_os_errors (inp : CycleInput)
    (st : LoopState) :
    ((∀ e, inp.pollResult = .error e → e.isOSError = true) →
      (∀ h ∈ st.handlers, ∀ e, (inp.behavior h).raises = some e →
        e.isOSError = true) →
      canRemoveEach st.handlers (pendingRequests inp st) = true →
      ∃ st' tr, runCycle inp st = .ok (st', tr)) ∧
    (∀ e, inp.pollResult = .error e → e.isOSError = false →
      runCycle inp st = .error (e, st)) := by
  constructor
  · intro hpoll hraise hcan
    cases hp : inp.pollResult with
    | ok evs =>
      obtain ⟨logs, hd⟩ := dispatchPhase_ok inp { st with events := evs }
        hraise hcan
      have hc : runCycle inp st =
          dispatchPhase inp { st with events := evs } := by
        unfold runCycle
        rw [hp]
      rw [hd] at hc
      exact ⟨_, _, hc⟩
    | error e =>
      have hos := hpoll e hp
      by_cases htr : isTransientPollError e = true
      · obtain ⟨logs, hd⟩ := dispatchPhase_ok inp st hraise hcan
        have hc1 : runCycle inp st =
            (match dispatchPhase inp st with
             | .ok (st1, tr) =>
               Except.ok (st1,
                 (⟨tr.invoked, .debugPoll :: tr.logs⟩ : CycleTrace))
             | .error es => Except.error es) := by
          unfold runCycle
          rw [hp]
          simp [hos, htr]
        rw [hd] at hc1
        simp only [] at hc1
        exact ⟨_, _, hc1⟩
      · rw [Bool.not_eq_true] at htr
        refine ⟨st, ⟨[], [.errorPoll]⟩, ?_⟩
        unfold runCycle
        rw [hp]
        simp [hos, htr]
  · intro e hp hos
    unfold runCycle
    rw [hp]
    simp [hos]

/-- Witness for C4 (amended): an EINTR OSError from poll is absorbed, a
`ValueError` from poll propagates. -/
theorem runCycle_catches_exactly_os_errors_witness :
    (∃ st' tr, runCycle eintrPollInput oneRefState = .ok (st', tr)) ∧
    runCycle nonOSPollInput oneRefState = .error (valueError, oneRefState) :=
  ⟨(runCycle_catches_exactly_os_errors eintrPollInput oneRefState).1
      (fun e he => by
        injection he with he
        rw [← he]
        rfl)
      (fun _ _ _ he => Option.noConfusion he)
      rfl,
    (runCycle_catches_exactly_os_errors nonOSPollInput oneRefState).2
      valueError rfl rfl⟩

/-- Counterexample to C5: on a transient EINTR poll failure the cycle does
NOT skip handler dispatch — the single handler is invoked (invocation
trace `[1]`), because the transient branch falls through to the dispatch
section instead of continuing to the next cycle. -/
theorem transient_error_still_dispatches_cex :
    runCycle eintrPollInput oneRefState =
      .ok (⟨[1], [1], [], false, []⟩, ⟨[1], [.debugPoll]⟩) ∧
    ((⟨[1], [.debugPoll]⟩ : CycleTrace).invoked ≠ []) := ⟨rfl, by decide⟩

/-- C5 (amended): on a transient poll failure (errno EINTR or EPIPE), the
loop logs at debug (low) severity and does not treat the failure as fatal,
but it does NOT skip to the next poll: it falls through and dispatches all
handlers for that cycle, with the previous cycle's `events` value left in
place. -/
theorem runCycle_transient_logs_debug_and_still_dispatches
    (inp : CycleInput) (st : LoopState) (e : PyExc)
    (hpoll : inp.pollResult = .error e)
    (hos : e.isOSError = true)
    (htr : isTransientPollError e = true)
    (hraise : ∀ h ∈ st.handlers, ∀ e2, (inp.behavior h).raises = some e2 →
      e2.isOSError = true)
    (hcan : canRemoveEach st.handlers (pendingRequests inp st) = true) :
    ∃ st' logs, runCycle inp st =
      .ok (st', ⟨st.handlers, .debugPoll :: logs⟩) ∧
      st'.events = st.events := by
  obtain ⟨logs, hd⟩ := dispatchPhase_ok inp st hraise hcan
  have hc1 : runCycle inp st =
      (match dispatchPhase inp st with
       | .ok (st1, tr) =>
         Except.ok (st1, (⟨tr.invoked, .debugPoll :: tr.logs⟩ : CycleTrace))
       | .error es => Except.error es) := by
    unfold runCycle
    rw [hpoll]
    simp [hos, htr]
  rw [hd] at hc1
  simp only [] at hc1
  exact ⟨_, logs, hc1, rfl⟩

/-- Witness for C5 (amended) at the concrete EINTR instance. -/
theorem runCycle_transient_logs_debug_and_still_dispatches_witness :
    ∃ st' logs, runCycle eintrPollInput oneRefState =
      .ok (st', ⟨oneRefState.handlers, .debugPoll :: logs⟩) ∧
      st'.events = oneRefState.events :=
  runCycle_transient_logs_debug_and_still_dispatches eintrPollInput
    oneRefState eintrExc rfl rfl rfl
    (fun _ _ _ he => Option.noConfusion he) rfl

/-- Counterexample to C6: on a non-transient poll failure (errno EIO) the
cycle performs NO bookkeeping at all: no handler is invoked and the
pending-removal flush is skipped (the pending list `[2]` survives), since
the error branch executes `continue`. -/
theorem nontransient_error_skips_bookkeeping_cex :
    runCycle eioPollInput pendingState =
      .ok (pendingState, ⟨[], [.errorPoll]⟩) ∧
    pendingState.handlers_to_remove ≠ [] := ⟨rfl, by decide⟩

/-- C6 (amended): on a poll failure whose errno is neither EINTR nor EPIPE,
the loop logs at error (high) severity and neither terminates nor lets the
exception propagate, but it SKIPS the remainder of that cycle's
bookkeeping: the state is returned unchanged (no handler dispatch, no
pending-removal flush) and the loop simply moves on to the next cycle. -/
theorem runCycle_nontransient_error_continues
    (inp : CycleInput) (st : LoopState) (e : PyExc)
    (hpoll : inp.pollResult = .error e)
    (hos : e.isOSError = true)
    (htr : isTransientPollError e = false) :
    runCycle inp st = .ok (st, ⟨[], [.errorPoll]⟩) ∧
    (∀ env i fuel, env i = inp → st.ref_handlers ≠ [] →
      runLoop env i (fuel + 1) st = runLoop env (i + 1) fuel st) := by
  have hcyc : runCycle inp st = .ok (st, ⟨[], [.errorPoll]⟩) := by
    unfold runCycle
    rw [hpoll]
    simp [hos, htr]
  refine ⟨hcyc, ?_⟩
  intro env i fuel henv href
  rw [runLoop_succ_eq, if_neg href, henv, hcyc]

/-- Witness for C6 (amended) at the concrete EIO instance. -/
theorem runCycle_nontransient_error_continues_witness :
    runCycle eioPollInput pendingState =
      .ok (pendingState, ⟨[], [.errorPoll]⟩) ∧
    (∀ env i fuel, env i = eioPollInput →
      pendingState.ref_handlers ≠ [] →
      runLoop env i (fuel + 1) pendingState =
        runLoop env (i + 1) fuel pendingState) :=
  runCycle_nontransient_error_continues eioPollInput pendingState eioExc
    rfl rfl rfl

/-! ### The descriptor registry -/

theorem alistFind_eq_none_of_not_mem (reg : Registry) (k : Nat)
    (h : k ∉ regKeys reg) : alistFind reg k = none := by
  induction reg with
  | nil => rfl
  | cons p rest ih =>
    obtain ⟨k2, v⟩ := p
    simp only [regKeys, List.map_cons, List.mem_cons] at h
    push_neg at h
    show (if k2 = k then some v else alistFind rest k) = none
    rw [if_neg (Ne.symm h.1)]
    exact ih h.2

theorem alistFind_dictSet_self (reg : Registry) (k : Nat) (v : Endpoint) :
    alistFind (dictSet reg k v) k = some v := by
  induction reg with
  | nil => simp [dictSet, alistFind]
  | cons p rest ih =>
    obtain ⟨k2, v2⟩ := p
    by_cases hk : k2 = k
    · subst hk
      simp [dictSet, alistFind]
    · simp [dictSet, alistFind, hk, ih]

theorem alistFind_dictSet_ne (reg : Registry) (k : Nat) (v : Endpoint)
    (k' : Nat) (h : k' ≠ k) :
    alistFind (dictSet reg k v) k' = alistFind reg k' := by
  have h2 : k ≠ k' := Ne.symm h
  induction reg with
  | nil => simp [dictSet, alistFind, h2]
  | cons p rest ih =>
    obtain ⟨k2, v2⟩ := p
    by_cases hk : k2 = k
    · subst hk
      simp [dictSet, alistFind, h2]
    · simp [dictSet, alistFind, hk, ih]

theorem dictSet_cons (k2 : Nat) (v2 : Endpoint) (rest : Registry)
    (k : Nat) (v : Endpoint) :
    dictSet ((k2, v2) :: rest) k v =
      if k2 = k then (k2, v) :: rest else (k2, v2) :: dictSet rest k v := rfl

theorem regKeys_dictSet (reg : Registry) (k : Nat) (v : Endpoint) :
    regKeys (dictSet reg k v) =
      if k ∈ regKeys reg then regKeys reg else regKeys reg ++ [k] := by
  induction reg with
  | nil => simp [dictSet, regKeys]
  | cons p rest ih =>
    obtain ⟨k2, v2⟩ := p
    by_cases hk : k2 = k
    · subst hk
      simp [dictSet, regKeys]
    · have hk2 : k ≠ k2 := Ne.symm hk
      rw [dictSet_cons, if_neg hk]
      rw [show regKeys ((k2, v2) :: dictSet rest k v) =
        k2 :: regKeys (dictSet rest k v) from rfl]
      rw [ih]
      rw [show regKeys ((k2, v2) :: rest) = k2 :: regKeys rest from rfl]
      by_cases hmem : k ∈ regKeys rest
      · rw [if_pos hmem, if_pos (List.mem_cons_of_mem k2 hmem)]
      · rw [if_neg hmem, if_neg (fun hin => by
          rcases List.mem_cons.1 hin with h1 | h1
          · exact hk2 h1
          · exact hmem h1)]
        rfl

theorem regKeys_dictSet_nodup (reg : Registry) (k : Nat) (v : Endpoint)
    (h : (regKeys reg).Nodup) : (regKeys (dictSet reg k v)).Nodup := by
  rw [regKeys_dictSet]
  by_cases hmem : k ∈ regKeys reg
  · simpa [hmem] using h
  · rw [if_neg hmem]
    refine h.append (List.nodup_singleton k) ?_
    intro a ha hb
    rw [List.mem_singleton] at hb
    subst hb
    exact hmem ha

theorem dictDel_props (reg : Registry) (k : Nat) :
    ∀ reg', (regKeys reg).Nodup → dictDel reg k = .ok reg' →
      (regKeys reg').Nodup ∧
      alistFind reg' k = none ∧
      (∀ k', k' ≠ k → alistFind reg' k' = alistFind reg k') ∧
      (∀ k2, k2 ∈ regKeys reg' → k2 ∈ regKeys reg) := by
  induction reg with
  | nil =>
    intro reg' _ hdel
    simp [dictDel] at hdel
  | cons p rest ih =>
    intro reg' hnd hdel
    obtain ⟨k2, v2⟩ := p
    rw [show regKeys ((k2, v2) :: rest) = k2 :: regKeys rest from rfl] at hnd
    obtain ⟨hk2nin, hndrest⟩ := List.nodup_cons.1 hnd
    by_cases hk : k2 = k
    · subst hk
      unfold dictDel at hdel
      rw [if_pos rfl] at hdel
      injection hdel with hdel
      subst hdel
      refine ⟨hndrest, alistFind_eq_none_of_not_mem rest k2 hk2nin, ?_, ?_⟩
      · intro k' hne
        show alistFind rest k' = if k2 = k' then some v2 else alistFind rest k'
        rw [if_neg (Ne.symm hne)]
      · intro k3 hk3
        exact List.mem_cons_of_mem k2 hk3
    · unfold dictDel at hdel
      rw [if_neg hk] at hdel
      cases hdel2 : dictDel rest k with
      | error e =>
        rw [hdel2] at hdel
        simp at hdel
      | ok rest' =>
        rw [hdel2] at hdel
        simp only [] at hdel
        injection hdel with hdel
        subst hdel
        obtain ⟨hnd', hfk, hfne, hsub⟩ := ih rest' hndrest hdel2
        refine ⟨?_, ?_, ?_, ?_⟩
        · rw [show regKeys ((k2, v2) :: rest') = k2 :: regKeys rest'
            from rfl]
          exact List.nodup_cons.2 ⟨fun hin => hk2nin (hsub k2 hin), hnd'⟩
        · show (if k2 = k then some v2 else alistFind rest' k) = none
          rw [if_neg hk]
          exact hfk
        · intro k' hne
          show (if k2 = k' then some v2 else alistFind rest' k') =
            if k2 = k' then some v2 else alistFind rest k'
          by_cases hkk : k2 = k'
          · rw [if_pos hkk, if_pos hkk]
          · rw [if_neg hkk, if_neg hkk]
            exact hfne k' hne
        · intro k3 hk3
          rw [show regKeys ((k2, v2) :: rest') = k2 :: regKeys rest'
            from rfl] at hk3
          rcases List.mem_cons.1 hk3 with rfl | hk3b
          · exact List.mem_cons_self k3 _
          · exact List.mem_cons_of_mem k2 (hsub k3 hk3b)

theorem lastWrite_cons (op : RegOp) (rest : List RegOp) (fd : Nat) :
    lastWrite (op :: rest) fd =
      match lastWrite rest fd with
      | some v => some v
      | none =>
        match op with
        | .add f _ => if f.fileno = fd then some (some f) else none
        | .remove f => if f.fileno = fd then some none else none
        | .modify _ _ => none := rfl

theorem applyRegOps_wf (ops : List RegOp) :
    ∀ reg : Registry, (regKeys reg).Nodup → wfRegOps reg ops = true →
      ∃ reg', applyRegOps reg ops = .ok reg' ∧ (regKeys reg').Nodup ∧
        ∀ fd, alistFind reg' fd =
          (lastWrite ops fd).getD (alistFind reg fd) := by
  induction ops with
  | nil =>
    intro reg hnd _
    exact ⟨reg, rfl, hnd, fun fd => rfl⟩
  | cons op rest ih =>
    intro reg hnd hwf
    cases op with
    | add f m =>
      unfold wfRegOps at hwf
      rw [Bool.and_eq_true] at hwf
      obtain ⟨hnm, hwf2⟩ := hwf
      obtain ⟨reg', h1, h2, h3⟩ := ih (dictSet reg f.fileno f)
        (regKeys_dictSet_nodup reg f.fileno f hnd) hwf2
      refine ⟨reg', h1, h2, ?_⟩
      intro fd
      rw [h3 fd]
      cases hlw : lastWrite rest fd with
      | some v =>
        rw [show lastWrite (RegOp.add f m :: rest) fd = some v from by
          rw [lastWrite_cons, hlw]]
        rfl
      | none =>
        rw [show lastWrite (RegOp.add f m :: rest) fd =
            (if f.fileno = fd then some (some f) else none) from by
          rw [lastWrite_cons, hlw]]
        by_cases hfd : f.fileno = fd
        · subst hfd
          rw [if_pos rfl]
          simp [alistFind_dictSet_self]
        · rw [if_neg hfd]
          simp [alistFind_dictSet_ne reg f.fileno f fd (Ne.symm hfd)]
    | remove f =>
      unfold wfRegOps at hwf
      rw [Bool.and_eq_true] at hwf
      obtain ⟨hm, hwf2⟩ := hwf
      cases hdel : dictDel reg f.fileno with
      | error e =>
        rw [hdel] at hwf2
        simp at hwf2
      | ok regd =>
        rw [hdel] at hwf2
        simp only [] at hwf2
        obtain ⟨hndd, hfk, hfne, hsub⟩ := dictDel_props reg f.fileno regd
          hnd hdel
        obtain ⟨reg', h1, h2, h3⟩ := ih regd hndd hwf2
        refine ⟨reg', ?_, h2, ?_⟩
        · show applyRegOps reg (RegOp.remove f :: rest) = .ok reg'
          unfold applyRegOps
          rw [show applyRegOp reg (RegOp.remove f) = Except.ok regd
            from hdel]
          exact h1
        · intro fd
          rw [h3 fd]
          cases hlw : lastWrite rest fd with
          | some v =>
            rw [show lastWrite (RegOp.remove f :: rest) fd = some v from by
              rw [lastWrite_cons, hlw]]
            rfl
          | none =>
            rw [show lastWrite (RegOp.remove f :: rest) fd =
                (if f.fileno = fd then some none else none) from by
              rw [lastWrite_cons, hlw]]
            by_cases hfd : f.fileno = fd
            · subst hfd
              rw [if_pos rfl]
              simp [hfk]
            · rw [if_neg hfd]
              simp [hfne fd (Ne.symm hfd)]
    | modify f m =>
      unfold wfRegOps at hwf
      obtain ⟨reg', h1, h2, h3⟩ := ih reg hnd hwf
      refine ⟨reg', h1, h2, ?_⟩
      intro fd
      rw [h3 fd]
      cases hlw : lastWrite rest fd with
      | some v =>
        rw [show lastWrite (RegOp.modify f m :: rest) fd = some v from by
          rw [lastWrite_cons, hlw]]
      | none =>
        rw [show lastWrite (RegOp.modify f m :: rest) fd = none from by
          rw [lastWrite_cons, hlw]]

/-- C9: for every add/remove/modify sequence with no duplicate add and no
remove of an unregistered descriptor, the registry `_fd_to_f` afterwards
maps exactly the descriptors whose most recent add is not followed by a
remove, each to the endpoint of that most recent add (`lastWrite`), and a
modify call leaves the registry untouched. -/
theorem registry_reflects_net_effect :
    (∀ ops : List RegOp, wfRegOps [] ops = true →
      ∃ reg, applyRegOps [] ops = .ok reg ∧
        ∀ fd, alistFind reg fd = (lastWrite ops fd).getD none) ∧
    (∀ (reg : Registry) (f : Endpoint) (m : Nat),
      applyRegOp reg (.modify f m) = .ok reg) := by
  constructor
  · intro ops hwf
    obtain ⟨reg, h1, _, h3⟩ := applyRegOps_wf ops [] (by simp [regKeys]) hwf
    exact ⟨reg, h1, fun fd => h3 fd⟩
  · intro reg f m
    rfl

/-- Witness for C9 at a concrete call sequence. -/
theorem registry_reflects_net_effect_witness :
    ∃ reg, applyRegOps [] exRegOps = .ok reg ∧
      ∀ fd, alistFind reg fd = (lastWrite exRegOps fd).getD none :=
  registry_reflects_net_effect.1 exRegOps rfl

end Eventloop
